import Mathlib

/-!
Verification of the rolling-cache / prediction core of the Master-predictor
repository.  The JavaScript sources are shallowly embedded: JSON-ish values
become the inductive `JVal`, JS machine numbers appearing in the data path are
modelled by `Int`/`Rat` (exact arithmetic; float rounding at the extremes of
the double range is outside the model), thrown exceptions become
`Except Unit`, and `Array.prototype.sort` (stable since ES2019) is modelled by
stable insertion sort, which agrees with any stable sort whenever the
comparator is consistent.
-/

namespace MP

/-! ## JS value model -/

/-- A JSON-like runtime value.  JS `undefined` is represented by `Option.none`
at use sites (absent object fields); numeric leaves are integers, which covers
every payload this program manipulates. -/
inductive JVal where
  | null : JVal
  | bool (b : Bool) : JVal
  | num (n : Int) : JVal
  | str (s : String) : JVal
  | arr (xs : List JVal) : JVal
  | obj (kvs : List (String × JVal)) : JVal
  deriving Repr

mutual

/-- JS `String(v)` coercion.  Arrays join their elements with `","` with
`null` elements printed as the empty string; plain objects print as
`"[object Object]"`. -/
def jsToString : JVal → String
  | .null => "null"
  | .bool true => "true"
  | .bool false => "false"
  | .num n => toString n
  | .str s => s
  | .arr xs => String.intercalate "," (jsToStringArr xs)
  | .obj _ => "[object Object]"

def jsToStringArr : List JVal → List String
  | [] => []
  | .null :: xs => "" :: jsToStringArr xs
  | x :: xs => jsToString x :: jsToStringArr xs

end

/-- JS truthiness.  (`NaN` does not arise: numeric leaves are integers.) -/
def jsTruthy : JVal → Bool
  | .null => false
  | .bool b => b
  | .num n => n != 0
  | .str s => s != ""
  | .arr _ => true
  | .obj _ => true

/-- JS member access `j[k]`, `none` meaning `undefined`.  Objects produced by
`JSON.parse` have no duplicate keys (the last binding wins there), which the
reversed lookup mirrors. -/
def jget (j : JVal) (k : String) : Option JVal :=
  match j with
  | .obj kvs => (kvs.reverse.find? (fun kv => kv.1 == k)).map (·.2)
  | _ => none

/-- Optional-chained access `j?.k1?.k2`. -/
def jget2 (j : JVal) (k1 k2 : String) : Option JVal :=
  (jget j k1).bind (fun v => jget v k2)

/-- The JS `??` chain: first operand that is neither `undefined` nor `null`. -/
def coalesce : List (Option JVal) → Option JVal
  | [] => none
  | none :: rest => coalesce rest
  | some .null :: rest => coalesce rest
  | some v :: _ => some v

/-! ## Numeric string parsing -/

/-- Whitespace trimming on the character list (JS `String.prototype.trim`). -/
def trimChars (cs : List Char) : List Char :=
  ((cs.dropWhile Char.isWhitespace).reverse.dropWhile Char.isWhitespace).reverse

def jsTrim (s : String) : String := String.mk (trimChars s.toList)

/-- Value of a digit list, most significant first. -/
def digitsVal (cs : List Char) : Nat :=
  cs.foldl (fun a c => a * 10 + (c.toNat - 48)) 0

def radixDigitVal (base : Nat) (c : Char) : Option Nat :=
  let v :=
    if '0' ≤ c ∧ c ≤ '9' then some (c.toNat - 48)
    else if 'a' ≤ c ∧ c ≤ 'f' then some (c.toNat - 87)
    else if 'A' ≤ c ∧ c ≤ 'F' then some (c.toNat - 55)
    else none
  match v with
  | some n => if n < base then some n else none
  | none => none

/-- All-or-nothing digit-string parse in the given base. -/
def parseRadix (base : Nat) (cs : List Char) : Option Nat :=
  if cs.isEmpty then none
  else
    cs.foldl
      (fun acc c =>
        match acc, radixDigitVal base c with
        | some a, some d => some (a * base + d)
        | _, _ => none)
      (some 0)

/-- JS `BigInt(string)`: trims, accepts the empty string as `0`, an optional
sign followed by decimal digits, or an unsigned `0x`/`0o`/`0b` literal;
anything else throws (`none` here). -/
def parseBigInt (s : String) : Option Int :=
  match trimChars s.toList with
  | [] => some 0
  | '0' :: c :: rest =>
    if c = 'x' ∨ c = 'X' then (parseRadix 16 rest).map Int.ofNat
    else if c = 'o' ∨ c = 'O' then (parseRadix 8 rest).map Int.ofNat
    else if c = 'b' ∨ c = 'B' then (parseRadix 2 rest).map Int.ofNat
    else (parseRadix 10 ('0' :: c :: rest)).map Int.ofNat
  | '-' :: rest => (parseRadix 10 rest).map (fun n => -(n : Int))
  | '+' :: rest => (parseRadix 10 rest).map Int.ofNat
  | cs => (parseRadix 10 cs).map Int.ofNat

/-- `parseInt(s, 10)` on an already-trimmed string: optional sign, then the
longest prefix of decimal digits; `NaN` (`none`) when there is none.  (Digit
strings long enough to overflow the double range are not modelled.) -/
def parseIntSigned (sgn : Int) (rest : List Char) : Option Int :=
  let digits := rest.takeWhile Char.isDigit
  if digits.isEmpty then none else some (sgn * Int.ofNat (digitsVal digits))

def parseIntJS (s : String) : Option Int :=
  match trimChars s.toList with
  | '-' :: r => parseIntSigned (-1) r
  | '+' :: r => parseIntSigned 1 r
  | r => parseIntSigned 1 r

/-! ## Stable sort with a JS comparator

`Array.prototype.sort(cmp)` with a consistent comparator is the unique stable
sort placing `a` before `b` whenever `cmp a b ≤ 0`; we reuse Mathlib's stable
`List.insertionSort` for it. -/

def jsSortLe (cmp : α → α → Int) (a b : α) : Prop := cmp a b ≤ 0

instance {cmp : α → α → Int} : DecidableRel (jsSortLe cmp) :=
  fun a b => inferInstanceAs (Decidable (cmp a b ≤ 0))

def jsSortBy (cmp : α → α → Int) (l : List α) : List α :=
  l.insertionSort (jsSortLe cmp)

/-! ## part_002: entries, mapper, cache merge -/

/-- Canonical cache entry `{ period, number, isBig, label }`. -/
structure Entry where
  period : String
  number : Nat
  isBig : Bool
  label : String
  deriving DecidableEq, Repr

/-- The identity alias chain of `mapItem`:
`item.issueNumber ?? item.issue ?? item.period ?? item.issue_no ??
 item.IssueNumber ?? item.Issue ?? ''`. -/
def identityAliases (item : JVal) : Option JVal :=
  coalesce [jget item "issueNumber", jget item "issue", jget item "period",
            jget item "issue_no", jget item "IssueNumber", jget item "Issue"]

/-- The value alias chain of `mapItem`:
`item.number ?? item.result ?? item.openNumber ?? item.open_no ?? item.No ?? item.no`. -/
def valueAliases (item : JVal) : Option JVal :=
  coalesce [jget item "number", jget item "result", jget item "openNumber",
            jget item "open_no", jget item "No", jget item "no"]

/-- `String(identity chain ?? '').trim()`. -/
def extractIdentity (item : JVal) : String :=
  jsTrim (jsToString ((identityAliases item).getD (.str "")))

/-- `Number.parseInt(String(rawNum ?? '').trim(), 10)`, `none` for `NaN`. -/
def extractValue (item : JVal) : Option Int :=
  parseIntJS (jsTrim (jsToString ((valueAliases item).getD (.str ""))))

/-- `mapItem` of part_002 (second server).  JS field access on `null` or
`undefined` would throw, so callers only reach this with genuine values; the
embedding is total with non-object inputs yielding an empty identity. -/
def mapItem (item : JVal) : Option Entry :=
  let period := extractIdentity item
  match extractValue item with
  | none => none
  | some n =>
    let safe := n.natAbs % 10
    if period = "" then none
    else some { period := period, number := safe, isBig := decide (5 ≤ safe),
                label := if 5 ≤ safe then "BIG" else "SMALL" }

/-- String fallback comparison `a < b ? 1 : a > b ? -1 : 0`. -/
def strCmpJS (a b : String) : Int :=
  if a < b then 1 else if b < a then -1 else 0

/-- Comparator of the second `mergeIntoCache`: big-integer compare of the two
period strings, falling back to string comparison when either throws. -/
def periodCmp (a b : Entry) : Int :=
  match parseBigInt a.period, parseBigInt b.period with
  | some A, some B => if A < B then 1 else if B < A then -1 else 0
  | _, _ => strCmpJS a.period b.period

/-- The insertion loop of `mergeIntoCache`: push each item whose period is not
already present (the `seen` set is exactly the periods of the accumulator). -/
def pushNew (cache items : List Entry) : List Entry :=
  items.foldl
    (fun acc it => if acc.any (fun e => e.period == it.period) then acc else acc ++ [it])
    cache

/-- `mergeIntoCache` of part_002 lines 287-307: guard on empty input, insert
unseen periods, sort descending by period (numeric with string fallback), cap
to `CACHE_SIZE = 21`. -/
def mergeIntoCache (cache items : List Entry) : List Entry :=
  if items.length = 0 then cache
  else
    let sorted := jsSortBy periodCmp (pushNew cache items)
    if 21 < sorted.length then sorted.take 21 else sorted

/-! The first `mergeIntoCache` variant (part_002 lines 31-51) has no empty
guard and no try/catch: `BigInt(period)` throws out of the sort whenever a
period does not parse.  We embed the comparator and the sort in `Except`. -/

/-- Comparator of the first merge variant; `BigInt` throwing is `.error`. -/
def periodCmpE (a b : Entry) : Except Unit Int :=
  match parseBigInt a.period with
  | none => .error ()
  | some A =>
    match parseBigInt b.period with
    | none => .error ()
    | some B => .ok (if A < B then 1 else if B < A then -1 else 0)

def orderedInsertE (cmpE : α → α → Except Unit Int) (a : α) : List α → Except Unit (List α)
  | [] => .ok [a]
  | b :: l =>
    match cmpE a b with
    | .error e => .error e
    | .ok c =>
      if c ≤ 0 then .ok (a :: b :: l)
      else
        match orderedInsertE cmpE a l with
        | .error e => .error e
        | .ok r => .ok (b :: r)

def insertionSortE (cmpE : α → α → Except Unit Int) : List α → Except Unit (List α)
  | [] => .ok []
  | a :: l =>
    match insertionSortE cmpE l with
    | .error e => .error e
    | .ok s => orderedInsertE cmpE a s

/-- `mergeIntoCache` of part_002 lines 31-51 (no guard, no catch); raises
whenever the sort compares an entry whose period `BigInt` cannot parse. -/
def mergeIntoCacheV1 (cache items : List Entry) : Except Unit (List Entry) :=
  match insertionSortE periodCmpE (pushNew cache items) with
  | .error e => .error e
  | .ok sorted => .ok (if 21 < sorted.length then sorted.take 21 else sorted)

/-- The second variant's comparator with its try/catch made explicit. -/
def periodCmpCaught (a b : Entry) : Except Unit Int :=
  match periodCmpE a b with
  | .ok v => .ok v
  | .error _ => .ok (strCmpJS a.period b.period)

/-- The second `mergeIntoCache` with exception propagation kept visible, used
to state that it never raises. -/
def mergeIntoCacheE (cache items : List Entry) : Except Unit (List Entry) :=
  if items.length = 0 then .ok cache
  else
    match insertionSortE periodCmpCaught (pushNew cache items) with
    | .error e => .error e
    | .ok sorted => .ok (if 21 < sorted.length then sorted.take 21 else sorted)

/-! ## part_002: predictions over window prefixes -/

/-- One element of the `/api/predictions` payload. -/
structure PredBlock where
  block : Nat
  window : Nat
  ready : Bool
  prediction : String
  big : Nat
  small : Nat
  deriving DecidableEq, Repr

/-- `WINDOWS = [1,5,7,9,11,13,15,17,19,21]`. -/
def WINDOWS : List Nat := [1, 5, 7, 9, 11, 13, 15, 17, 19, 21]

/-- Body of the `WINDOWS.map((win, idx) => ...)` callback. -/
def predFor (cache : List Entry) (idx win : Nat) : PredBlock :=
  if cache.length < win then
    { block := idx + 1, window := win, ready := false, prediction := "WAIT", big := 0, small := 0 }
  else
    let slice := cache.take win
    let big := slice.foldl (fun a i => a + if i.isBig then 1 else 0) 0
    let small := win - big
    { block := idx + 1, window := win, ready := true,
      prediction := if small ≤ big then "BIG" else "SMALL", big := big, small := small }

def computeAllPredictionsAux (cache : List Entry) : Nat → List Nat → List PredBlock
  | _, [] => []
  | idx, w :: ws => predFor cache idx w :: computeAllPredictionsAux cache (idx + 1) ws

/-- `computeAllPredictions` of part_002 lines 309-325. -/
def computeAllPredictions (cache : List Entry) : List PredBlock :=
  computeAllPredictionsAux cache 0 WINDOWS

/-! ## part_002: payload extraction and the update cycle -/

/-- JS `typeof v === 'object'` (true for objects, arrays and `null`). -/
def isObjectType : JVal → Bool
  | .obj _ => true
  | .arr _ => true
  | .null => true
  | _ => false

/-- The heuristic fallback scan of `extractList`: first object field holding a
non-empty array whose first element has `typeof === 'object'`. -/
def heuristicGo : List (String × JVal) → List JVal
  | [] => []
  | (_, .arr (x :: xs)) :: rest => if isObjectType x then x :: xs else heuristicGo rest
  | _ :: rest => heuristicGo rest

def heuristicScan : JVal → List JVal
  | .obj kvs => heuristicGo kvs
  | _ => []

/-- `extractList` of part_002 lines 259-271.  (Keys iterate in insertion
order; the JS reordering of integer-like keys does not arise for these
payloads and is not modelled.) -/
def extractList (payload : JVal) : List JVal :=
  if !jsTruthy payload then []
  else
    match jget2 payload "data" "list" with
    | some (.arr xs) => xs
    | _ =>
      match jget payload "data" with
      | some (.arr xs) => xs
      | _ =>
        match jget payload "list" with
        | some (.arr xs) => xs
        | _ =>
          match jget2 payload "data" "List" with
          | some (.arr xs) => xs
          | _ => heuristicScan payload

/-- `typeof out.body === 'object' ? out.body : {}`. -/
def normBody (b : JVal) : JVal :=
  if isObjectType b then b else .obj []

/-- `updateOnce` of part_002 lines 412-441, as a function of the cache and of
the outcomes of the two fetch attempts.  A rejected HTTP fetch (`.error`) is
absorbed by the surrounding catch, which leaves the cache untouched; the
Puppeteer helper never rejects (it returns status 598 instead).  (A `null`
element inside a returned list would make `mapItem` throw in JS, again caught
with the cache untouched; the total embedding of `mapItem` instead drops such
rows, a branch none of the theorems below exercises.) -/
def updateOnce (cache : List Entry) (http : Except Unit (Int × JVal)) (pup : Int × JVal) :
    List Entry :=
  match http with
  | .error _ => cache
  | .ok (status, body) =>
    let list := extractList (normBody body)
    if status = 200 ∧ 0 < list.length then
      mergeIntoCache cache ((list.map mapItem).reduceOption)
    else
      let list2 := extractList (normBody pup.2)
      if pup.1 = 200 ∧ 0 < list2.length then
        mergeIntoCache cache ((list2.map mapItem).reduceOption)
      else cache

/-! ## index.js: timestamped entries, mapper, upsert, pruning -/

/-- An index.js entry `{ period: string|null, value: number, tISTms: number }`.
Values are exact rationals standing for JS doubles. -/
structure MRow where
  period : Option String
  value : Rat
  tISTms : Int
  deriving DecidableEq, Repr

/-- Decimal (or prefixed-radix) numeric string for JS `Number(string)`.
`none` covers every non-finite outcome (`NaN` and `±Infinity`), all of which
fail the program's `Number.isFinite` checks identically. -/
def expDigits (ds : List Char) : Option Int :=
  if ds.isEmpty ∨ ¬ ds.all Char.isDigit then none else some (Int.ofNat (digitsVal ds))

def parseExpPart : List Char → Option Int
  | [] => some 0
  | e :: rest =>
    if e = 'e' ∨ e = 'E' then
      match rest with
      | '+' :: ds => expDigits ds
      | '-' :: ds => (expDigits ds).map Neg.neg
      | ds => expDigits ds
    else none

def parseDecUnsigned (cs : List Char) : Option Rat :=
  let intPart := cs.takeWhile Char.isDigit
  let rest1 := cs.dropWhile Char.isDigit
  match rest1 with
  | '.' :: rest2 =>
    let frac := rest2.takeWhile Char.isDigit
    let rest3 := rest2.dropWhile Char.isDigit
    if intPart.isEmpty ∧ frac.isEmpty then none
    else
      (parseExpPart rest3).map
        (fun e => ((digitsVal intPart : Rat) + (digitsVal frac : Rat) / ((10 : Rat) ^ frac.length))
            * (10 : Rat) ^ e)
  | _ =>
    if intPart.isEmpty then none
    else (parseExpPart rest1).map (fun e => (digitsVal intPart : Rat) * (10 : Rat) ^ e)

def jsNumberOfString (s : String) : Option Rat :=
  match trimChars s.toList with
  | [] => some 0
  | '0' :: c :: rest =>
    if c = 'x' ∨ c = 'X' then (parseRadix 16 rest).map (fun n => (n : Rat))
    else if c = 'o' ∨ c = 'O' then (parseRadix 8 rest).map (fun n => (n : Rat))
    else if c = 'b' ∨ c = 'B' then (parseRadix 2 rest).map (fun n => (n : Rat))
    else parseDecUnsigned ('0' :: c :: rest)
  | '-' :: rest => (parseDecUnsigned rest).map Neg.neg
  | '+' :: rest => parseDecUnsigned rest
  | cs => parseDecUnsigned cs

/-- JS `Number(v)` (ToNumber); arrays and objects convert through their string
form. -/
def jsNumber : JVal → Option Rat
  | .null => some 0
  | .bool b => some (if b then 1 else 0)
  | .num n => some (n : Rat)
  | .str s => jsNumberOfString s
  | .arr xs => jsNumberOfString (jsToString (.arr xs))
  | .obj kvs => jsNumberOfString (jsToString (.obj kvs))

/-- Days between 1970-01-01 and year/month/day in the proleptic Gregorian
calendar (months already normalised to 1..12). -/
def daysFromCivil (y m d : Int) : Int :=
  let y2 := if m ≤ 2 then y - 1 else y
  let era := y2.fdiv 400
  let yoe := y2 - era * 400
  let mp := (m + 9).emod 12
  let doy := (153 * mp + 2).fdiv 5 + d - 1
  let doe := yoe * 365 + yoe.fdiv 4 - yoe.fdiv 100 + doy
  era * 146097 + doe - 719468

/-- `Date.UTC(year, mon, day, hr, min, 0, 0)`: 0-based month rolling into the
year, out-of-range day/hour/minute rolling linearly, two-digit years mapped to
1900+. -/
def dateUTC (year mon day hr min : Int) : Int :=
  let y0 := if 0 ≤ year ∧ year ≤ 99 then year + 1900 else year
  let y := y0 + mon.fdiv 12
  let m := mon.emod 12 + 1
  ((daysFromCivil y m 1 + (day - 1)) * 86400 + hr * 3600 + min * 60) * 1000

/-- `periodISTtoMs` of index.js lines 91-105: a 12-digit `YYYYMMDDHHmm` IST
clock reading to IST-epoch milliseconds; `null` otherwise. -/
def periodISTtoMs (s : String) : Option Int :=
  let cs := s.toList
  if cs.length = 12 ∧ cs.all Char.isDigit then
    let y := Int.ofNat (digitsVal (cs.take 4))
    let M := Int.ofNat (digitsVal ((cs.drop 4).take 2))
    let D := Int.ofNat (digitsVal ((cs.drop 6).take 2))
    let h := Int.ofNat (digitsVal ((cs.drop 8).take 2))
    let m := Int.ofNat (digitsVal ((cs.drop 10).take 2))
    some (dateUTC y (M - 1) D (h - 5) (m - 30) + 330 * 60 * 1000)
  else none

/-- The `tISTms` fallback of `mapRow`: decomposing `istNow()` into UTC
calendar fields and rebuilding with seconds and milliseconds zeroed floors the
shifted instant to its minute. -/
def istFloorMinuteMs (nowMs : Int) : Int :=
  (nowMs + 330 * 60 * 1000).fdiv 60000 * 60000 + 330 * 60 * 1000

/-- `row.period ?? row.issue ?? row.issueNo ?? row.gameNo ?? row.no ?? null`. -/
def rowPeriodRaw (row : JVal) : Option JVal :=
  coalesce [jget row "period", jget row "issue", jget row "issueNo",
            jget row "gameNo", jget row "no"]

/-- `row.number ?? row.result ?? row.resultNo ?? row.openNum ?? row.value ??
row.num ?? null`. -/
def rowValueRaw (row : JVal) : Option JVal :=
  coalesce [jget row "number", jget row "result", jget row "resultNo",
            jget row "openNum", jget row "value", jget row "num"]

/-- `mapRow` of index.js lines 179-204, with the clock made explicit.  Note
the JS `if (!tISTms)`: a parsed period timestamp of exactly `0` is falsy and
falls back to the clock. -/
def mapRow (row : JVal) (nowMs : Int) : Option MRow :=
  let p := (rowPeriodRaw row).getD .null
  match jsNumber ((rowValueRaw row).getD .null) with
  | none => none
  | some v =>
    let t0 : Option Int := if jsTruthy p then periodISTtoMs (jsToString p) else none
    let t : Int :=
      match t0 with
      | some ms => if ms = 0 then istFloorMinuteMs nowMs else ms
      | none => istFloorMinuteMs nowMs
    some { period := if jsTruthy p then some (jsToString p) else none, value := v, tISTms := t }

/-- Newest-first time comparator `(a,b) => (b.tISTms||0) - (a.tISTms||0)`. -/
def tCmpDesc (a b : MRow) : Int := b.tISTms - a.tISTms

/-- `pruneOld` of index.js lines 115-125 with the clock and the configured
retention (default 30 minutes) explicit: drop entries older than the cutoff,
then sort newest-first. -/
def pruneOld (entries : List MRow) (nowMs retMin : Int) : List MRow :=
  let cutoff := nowMs + 330 * 60 * 1000 - retMin * 60 * 1000
  jsSortBy tCmpDesc (entries.filter (fun e => cutoff ≤ e.tISTms))

/-- Stand-in for JS number printing inside the dedup key; injective on exact
values, which is all the key equality needs. -/
def ratKeyStr (q : Rat) : String := toString q

/-- The dedup key: `p:<period>` when the period is truthy, else
`t:<tISTms>:<value>`. -/
def entryKey (e : MRow) : String :=
  match e.period with
  | some p => if p ≠ "" then "p:" ++ p else "t:" ++ toString e.tISTms ++ ":" ++ ratKeyStr e.value
  | none => "t:" ++ toString e.tISTms ++ ":" ++ ratKeyStr e.value

/-- One step of the `byKey` Map loop: a new key is appended, an existing key's
value is replaced in place exactly when the incoming `tISTms` is strictly
greater. -/
def mapUpsertStep (m : List (String × MRow)) (e : MRow) : List (String × MRow) :=
  let k := entryKey e
  match m.find? (fun kv => kv.1 == k) with
  | none => m ++ [(k, e)]
  | some kv =>
    if kv.2.tISTms < e.tISTms then m.map (fun kv2 => if kv2.1 == k then (k, e) else kv2) else m

/-- The whole `byKey` Map built over `[...newOnes, ...entries]`. -/
def upsertMap (l : List MRow) : List (String × MRow) := l.foldl mapUpsertStep []

/-- `upsertEntries` of index.js lines 127-141: dedup through the Map, sort
newest-first, then `pruneOld`. -/
def upsertEntries (newOnes entries : List MRow) (nowMs retMin : Int) : List MRow :=
  pruneOld (jsSortBy tCmpDesc ((upsertMap (newOnes ++ entries)).map Prod.snd)) nowMs retMin

/-- `numericHistory`: newest-first values. -/
def numericHistory (entries : List MRow) : List Rat := entries.map (·.value)

/-- `extractRows` of index.js lines 169-176. -/
def extractRows (data : JVal) : List JVal :=
  match data with
  | .arr xs => xs
  | _ =>
    match jget2 data "data" "list" with
    | some (.arr xs) => xs
    | _ =>
      match jget data "data" with
      | some (.arr xs) => xs
      | _ =>
        match jget data "list" with
        | some (.arr xs) => xs
        | _ =>
          match jget data "rows" with
          | some (.arr xs) => xs
          | _ => []

def isTwelveDigit (s : String) : Bool :=
  s.length = 12 && s.toList.all Char.isDigit

/-- Sign of `Number(b.period) - Number(a.period)` (only reached when every
period is a 12-digit numeral). -/
def rowPeriodCmpDesc (a b : MRow) : Int :=
  let A := (jsNumber (.str (a.period.getD ""))).getD 0
  let B := (jsNumber (.str (b.period.getD ""))).getD 0
  if B < A then -1 else if A < B then 1 else 0

/-- `refreshFromBDG` of index.js lines 206-223 as a function of the previous
entries and the fetch outcome.  `axios` rejects on network errors and on
non-2xx statuses alike; the caller's catch then leaves the entries untouched,
which the `.error` branch models. -/
def refreshFromBDG (entries : List MRow) (res : Except Unit JVal) (nowMs retMin : Int) :
    List MRow :=
  match res with
  | .error _ => entries
  | .ok data =>
    let list := extractRows data
    if list.length = 0 then entries
    else
      let mapped := (list.map (fun r => mapRow r nowMs)).reduceOption
      let ordered :=
        if mapped.all (fun r => match r.period with
            | some p => p != "" && isTwelveDigit p
            | none => false) then
          jsSortBy rowPeriodCmpDesc mapped
        else jsSortBy tCmpDesc mapped
      upsertEntries ordered entries nowMs retMin

/-! ## index.js: the ten predictor functions

They run on the newest-first value history.  Exact rational arithmetic stands
for JS doubles; the standard-deviation comparisons of `p6` and `p10` are
encoded by comparing variances against the squared thresholds, which is exact
since both sides are nonnegative.  `RESULT_RANGE_MAX` defaults to 99 (> 9),
so `toDigit` is the `v % 10` branch. -/

def takeJS (a : List Rat) (n : Nat) : List Rat := a.take n

def sumR (a : List Rat) : Rat := a.foldl (· + ·) 0

def avg (a : List Rat) : Rat := if a.length = 0 then 0 else sumR a / (a.length : Rat)

/-- Truncation toward zero, for the JS `%` operator. -/
def ratTrunc (x : Rat) : Int := if 0 ≤ x then x.floor else x.ceil

/-- JS `x % y` on numbers: remainder with the sign of the dividend. -/
def jsFmod (x y : Rat) : Rat := x - y * (ratTrunc (x / y) : Rat)

def toDigit (v : Rat) : Rat := jsFmod v 10

/-- `Math.round`: half-up, also for negative arguments. -/
def jsRound (x : Rat) : Int := (x + 1 / 2).floor

/-- JS `%` after `Math.round`, on integers. -/
def imod10 (n : Int) : Int := Int.tmod n 10

def ratAsc (x y : Rat) : Int := if x < y then -1 else if y < x then 1 else 0

/-- `median`: sort ascending, middle element or mean of the two middles. -/
def median (a : List Rat) : Rat :=
  if a.length = 0 then 0
  else
    let b := jsSortBy ratAsc a
    let m := b.length / 2
    if b.length % 2 = 1 then b.getD m 0 else (b.getD (m - 1) 0 + b.getD m 0) / 2

/-- Distinct values in first-occurrence order (the Map's key order). -/
def firstUniques (a : List Rat) : List Rat :=
  a.foldl (fun acc v => if acc.contains v then acc else acc ++ [v]) []

/-- `mode`: value with the strictly largest count, earliest first occurrence
winning ties; `0` for the empty list. -/
def mode (a : List Rat) : Rat :=
  let best :=
    (firstUniques a).foldl
      (fun best k =>
        match best with
        | none => some (k, a.count k)
        | some (b, c) => if c < a.count k then some (k, a.count k) else some (b, c))
      (none : Option (Rat × Nat))
  match best with
  | some (b, _) => b
  | none => 0

/-- JS number rendering inside prediction labels; matches JS for the integer
values that actually occur there. -/
def ratLabel (q : Rat) : String := if q.den = 1 then toString q.num else toString q

def p1 (h : List Rat) : String × String :=
  if h.length < 10 then ("Waiting…", "wait")
  else
    let a := avg ((takeJS h 5).map toDigit)
    let b := avg (((h.drop 5).take 5).map toDigit)
    ("Bias " ++ (if b ≤ a then "↗" else "↘") ++ " next≈" ++ toString (imod10 (jsRound a)),
     if b ≤ a then "good" else "bad")

def p2 (h : List Rat) : String × String :=
  if h.length < 10 then ("Waiting…", "wait")
  else
    let pick := [0, 2, 8].map (fun i => toDigit (h.getD i 0))
    ("Blend=" ++ ratLabel (jsFmod (pick.getD 0 0 + pick.getD 1 0 + pick.getD 2 0) 10), "accent")

def p3 (h : List Rat) : String × String :=
  if h.length < 6 then ("Waiting…", "wait")
  else
    let last6 := (takeJS h 6).map toDigit
    let m := mode last6
    let c := (last6.filter (fun x => x = m)).length
    (if 3 ≤ c then "Stick with " ++ ratLabel m else "Shift to " ++ ratLabel (jsFmod (m + 1) 10),
     if 3 ≤ c then "good" else "warn")

def p4 (h : List Rat) : String × String :=
  if h.length < 4 then ("Waiting…", "wait")
  else
    let a := imod10 (jsRound (avg ((takeJS h 4).map toDigit)))
    ("Momentum=" ++ toString a, "accent")

def p5 (h : List Rat) : String × String :=
  if h.length < 7 then ("Waiting…", "wait")
  else
    let m := imod10 (jsRound (median ((takeJS h 7).map toDigit)))
    ("Median=" ++ toString m, "accent")

def p6 (h : List Rat) : String × String :=
  if h.length < 8 then ("Waiting…", "wait")
  else
    let arr := (takeJS h 8).map toDigit
    let mu := avg arr
    let varr := avg (arr.map (fun x => (x - mu) * (x - mu)))
    let isSwing := (25 : Rat) / 4 < varr
    let choose :=
      if isSwing then imod10 (jsRound ((arr.getD 0 0 + arr.getD 1 0) / 2))
      else imod10 (jsRound mu)
    ((if isSwing then "Swing=" else "Mean=") ++ toString choose,
     if isSwing then "warn" else "good")

def p7 (h : List Rat) : String × String :=
  if h.length < 9 then ("Waiting…", "wait")
  else
    let a := (takeJS h 9).map toDigit
    let odd := (a.filter (fun x => jsFmod x 2 = 1)).length
    let isOdd := a.length - odd ≤ odd
    ((if isOdd then "Odd" else "Even") ++ " → " ++ (if isOdd then "1" else "0"),
     if isOdd then "good" else "accent")

def p8 (h : List Rat) : String × String :=
  if h.length < 12 then ("Waiting…", "wait")
  else
    let a := (takeJS h 12).map toDigit
    let low := (a.filter (fun x => x ≤ 4)).length
    let high := a.length - low
    ("Bias " ++ (if low < high then "High(5-9)" else "Low(0-4)") ++ " → "
       ++ (if low < high then "7" else "2"),
     if low < high then "bad" else "good")

def p9 (h : List Rat) : String × String :=
  if h.length < 10 then ("Waiting…", "wait")
  else
    let m := mode ((takeJS h 10).map toDigit)
    (ratLabel m ++ " or " ++ ratLabel (jsFmod (m + 9) 10), "accent")

def p10 (h : List Rat) : String × String :=
  if h.length < 21 then ("Waiting (need 21)", "wait")
  else
    let t := (takeJS h 21).map toDigit
    let w := (List.range 21).map (fun i => ((21 - i : Nat) : Rat))
    let num := ((t.zip w).map (fun x => x.1 * x.2)).foldl (· + ·) 0
    let den := w.foldl (· + ·) 0
    let pred := imod10 (jsRound (num / den))
    let mu := avg t
    let varr := avg (t.map (fun x => (x - mu) * (x - mu)))
    ("W-Avg=" ++ toString pred ++ " • conf "
       ++ (if varr < 4 then "High" else if varr < (49 : Rat) / 4 then "Mid" else "Low"),
     if varr < 4 then "good" else if varr < (49 : Rat) / 4 then "warn" else "bad")

/-! ## The standalone 30-minute history helper (first fragment of index.js) -/

structure HistEntry (α : Type) where
  data : α
  timestamp : Int
  deriving DecidableEq, Repr

/-- `addNewHistoryEntry`: unshift the new entry at the current time, drop
entries older than 30 minutes (1800000 ms), cap at 21. -/
def addNewHistoryEntry {α : Type} (hist : List (HistEntry α)) (newEntry : α) (nowMs : Int) :
    List (HistEntry α) :=
  let h1 := { data := newEntry, timestamp := nowMs } :: hist
  let h2 := h1.filter (fun e => nowMs - e.timestamp ≤ 1800000)
  if 21 < h2.length then h2.take 21 else h2

/-! # Theorems -/

open List

/-! ## Generic facts about the sort model -/

theorem orderedInsert_pairwise_key (cmp : α → α → Int) (k : α → Int) (a : α) (L : List α)
    (hL : L.Pairwise (fun x y => k y ≤ k x))
    (hcmp : ∀ b ∈ L, (cmp a b ≤ 0 ↔ k b ≤ k a)) :
    (L.orderedInsert (jsSortLe cmp) a).Pairwise (fun x y => k y ≤ k x) := by
  induction L with
  | nil => simp
  | cons b L ih =>
    rw [List.orderedInsert]
    rcases List.pairwise_cons.mp hL with ⟨hb, hL'⟩
    by_cases h : jsSortLe cmp a b
    · rw [if_pos h]
      have hba : k b ≤ k a := (hcmp b (mem_cons_self b L)).mp h
      refine List.pairwise_cons.mpr ⟨?_, hL⟩
      intro y hy
      rcases List.mem_cons.mp hy with rfl | hy'
      · exact hba
      · exact le_trans (hb y hy') hba
    · rw [if_neg h]
      have hab : k a < k b := by
        have hnle : ¬ k b ≤ k a := fun hle => h ((hcmp b (mem_cons_self b L)).mpr hle)
        omega
      refine List.pairwise_cons.mpr
        ⟨?_, ih hL' (fun c hc => hcmp c (mem_cons_of_mem b hc))⟩
      intro y hy
      rcases (List.mem_orderedInsert _).mp hy with rfl | hy'
      · exact le_of_lt hab
      · exact hb y hy'

theorem jsSortBy_pairwise_key (cmp : α → α → Int) (k : α → Int) (l : List α)
    (hk : ∀ a ∈ l, ∀ b ∈ l, (cmp a b ≤ 0 ↔ k b ≤ k a)) :
    (jsSortBy cmp l).Pairwise (fun x y => k y ≤ k x) := by
  induction l with
  | nil => simp [jsSortBy, List.insertionSort]
  | cons a l ih =>
    have heq : jsSortBy cmp (a :: l) = (jsSortBy cmp l).orderedInsert (jsSortLe cmp) a := rfl
    rw [heq]
    refine orderedInsert_pairwise_key cmp k a _
      (ih (fun x hx y hy => hk x (mem_cons_of_mem a hx) y (mem_cons_of_mem a hy))) ?_
    intro b hb
    have hb' : b ∈ l := by
      have : b ∈ jsSortBy cmp l := hb
      exact (List.mem_insertionSort _).mp this
    exact hk a (mem_cons_self a l) b (mem_cons_of_mem a hb')

theorem pairwise_lt_of_le_of_ne (k : α → Int) (l : List α)
    (h1 : l.Pairwise (fun x y => k y ≤ k x)) (h2 : l.Pairwise (fun x y => k x ≠ k y)) :
    l.Pairwise (fun x y => k y < k x) :=
  (h1.and h2).imp (fun h => lt_of_le_of_ne h.1 (Ne.symm h.2))

/-! ## Facts about `pushNew` -/

theorem pushNew_mem {cache items : List Entry} {x : Entry} (hx : x ∈ pushNew cache items) :
    x ∈ cache ∨ x ∈ items := by
  induction items generalizing cache with
  | nil => exact Or.inl hx
  | cons it items ih =>
    simp only [pushNew, List.foldl_cons] at hx
    by_cases hc : cache.any (fun e => e.period == it.period)
    · rw [if_pos hc] at hx
      rcases ih hx with h | h
      · exact Or.inl h
      · exact Or.inr (mem_cons_of_mem it h)
    · rw [if_neg hc] at hx
      rcases ih hx with h | h
      · rcases List.mem_append.mp h with h' | h'
        · exact Or.inl h'
        · rcases List.mem_singleton.mp h' with rfl
          exact Or.inr (mem_cons_self x items)
      · exact Or.inr (mem_cons_of_mem it h)

theorem pushNew_periods_nodup {cache items : List Entry}
    (h : (cache.map (·.period)).Nodup) : ((pushNew cache items).map (·.period)).Nodup := by
  induction items generalizing cache with
  | nil => exact h
  | cons it items ih =>
    simp only [pushNew, List.foldl_cons]
    by_cases hc : cache.any (fun e => e.period == it.period)
    · rw [if_pos hc]; exact ih h
    · rw [if_neg hc]
      refine ih ?_
      rw [List.map_append]
      refine List.Nodup.append h (by simp) ?_
      simp only [List.any_eq_true, beq_iff_eq, not_exists, not_and] at hc
      intro p hp hp'
      rcases List.mem_map.mp hp with ⟨e, he, rfl⟩
      simp only [List.map_cons, List.map_nil, List.mem_singleton] at hp'
      exact hc e he hp'

theorem pushNew_single_of_mem {cache : List Entry} {e : Entry}
    (h : e.period ∈ cache.map (·.period)) : pushNew cache [e] = cache := by
  have : cache.any (fun x => x.period == e.period) = true := by
    simp only [List.any_eq_true, beq_iff_eq]
    rcases List.mem_map.mp h with ⟨x, hx, hxe⟩
    exact ⟨x, hx, hxe⟩
  rw [pushNew]
  simp only [List.foldl_cons, List.foldl_nil]
  rw [if_pos this]

theorem pushNew_single_of_not_mem {cache : List Entry} {e : Entry}
    (h : e.period ∉ cache.map (·.period)) : pushNew cache [e] = cache ++ [e] := by
  have : ¬ cache.any (fun x => x.period == e.period) = true := by
    simp only [List.any_eq_true, beq_iff_eq, not_exists, not_and]
    intro x hx hxe
    exact h (List.mem_map.mpr ⟨x, hx, hxe⟩)
  rw [pushNew]
  simp only [List.foldl_cons, List.foldl_nil]
  rw [if_neg this]

/-! ## C1: the merge invariant -/

/-- Numeric value of a period string (the invariant below only uses it on
entries whose period parses). -/
def pKey (e : Entry) : Int := (parseBigInt e.period).getD 0

def AllNumPeriods (l : List Entry) : Prop := ∀ e ∈ l, (parseBigInt e.period).isSome

def PeriodsNodup (l : List Entry) : Prop := (l.map (·.period)).Nodup

/-- Distinct period strings denote distinct numbers (rules out e.g. `"01"`
next to `"1"`). -/
def NumInjOn (l : List Entry) : Prop :=
  ∀ a ∈ l, ∀ b ∈ l, pKey a = pKey b → a.period = b.period

/-- The cache invariant of the claim: unique periods, strictly descending by
numeric period, at most 21 entries. -/
def CacheInv (l : List Entry) : Prop :=
  PeriodsNodup l ∧ l.Pairwise (fun a b => pKey b < pKey a) ∧ l.length ≤ 21

instance (l : List Entry) : Decidable (AllNumPeriods l) :=
  inferInstanceAs (Decidable (∀ e ∈ l, (parseBigInt e.period).isSome))

instance (l : List Entry) : Decidable (PeriodsNodup l) :=
  inferInstanceAs (Decidable (List.Nodup (l.map (fun e : Entry => e.period))))

instance (l : List Entry) : Decidable (NumInjOn l) :=
  inferInstanceAs (Decidable (∀ a ∈ l, ∀ b ∈ l, pKey a = pKey b → a.period = b.period))

instance (l : List Entry) : Decidable (CacheInv l) :=
  inferInstanceAs
    (Decidable (PeriodsNodup l ∧ l.Pairwise (fun a b => pKey b < pKey a) ∧ l.length ≤ 21))

theorem periodCmp_le_iff {a b : Entry} (ha : (parseBigInt a.period).isSome)
    (hb : (parseBigInt b.period).isSome) :
    (periodCmp a b ≤ 0 ↔ pKey b ≤ pKey a) := by
  rcases Option.isSome_iff_exists.mp ha with ⟨A, hA⟩
  rcases Option.isSome_iff_exists.mp hb with ⟨B, hB⟩
  simp only [periodCmp, pKey, hA, hB, Option.getD_some]
  split_ifs with h1 h2 <;> omega

/-- C1 (counterexample).  Entries mapped from records with identities `"01"`
and `"1"` have distinct period strings but the same numeric period; after
merging both into the empty cache the result is not strictly descending by
period. -/
theorem c1_counterexample :
    ¬ ((mergeIntoCache [] [⟨"01", 1, false, "SMALL"⟩, ⟨"1", 1, false, "SMALL"⟩]).Pairwise
        (fun a b => pKey b < pKey a)) := by decide

/-- C1 (amended).  For every cache satisfying the invariant and every batch of
mapped entries whose periods all parse as big integers, with distinct period
strings denoting distinct numbers, the merged cache again has pairwise
distinct periods, is strictly descending by numeric period, and has length at
most 21.  (Without the numeric-injectivity hypothesis, distinct strings such
as `"01"` and `"1"` defeat strictness, as the counterexample shows.) -/
theorem c1_merge_invariant (cache items : List Entry)
    (hinv : CacheInv cache) (hca : AllNumPeriods cache) (hia : AllNumPeriods items)
    (hinj : NumInjOn (cache ++ items)) :
    CacheInv (mergeIntoCache cache items) := by
  rcases hinv with ⟨hnd, hsorted, hlen⟩
  rw [mergeIntoCache]
  by_cases hemp : items.length = 0
  · rw [if_pos hemp]; exact ⟨hnd, hsorted, hlen⟩
  · rw [if_neg hemp]
    have hmem : ∀ x ∈ pushNew cache items, x ∈ cache ++ items := by
      intro x hx
      rcases pushNew_mem hx with h | h
      · exact List.mem_append.mpr (Or.inl h)
      · exact List.mem_append.mpr (Or.inr h)
    have hall : ∀ x ∈ pushNew cache items, (parseBigInt x.period).isSome := by
      intro x hx
      rcases pushNew_mem hx with h | h
      exacts [hca x h, hia x h]
    have hperm : jsSortBy periodCmp (pushNew cache items) ~ pushNew cache items :=
      List.perm_insertionSort _ _
    have hsmem : ∀ x ∈ jsSortBy periodCmp (pushNew cache items), x ∈ cache ++ items :=
      fun x hx => hmem x (hperm.mem_iff.mp hx)
    have hple : (jsSortBy periodCmp (pushNew cache items)).Pairwise
        (fun x y => pKey y ≤ pKey x) :=
      jsSortBy_pairwise_key periodCmp pKey _
        (fun a ha b hb => periodCmp_le_iff (hall a ha) (hall b hb))
    have hnd_s : ((jsSortBy periodCmp (pushNew cache items)).map (·.period)).Nodup :=
      ((hperm.map _).nodup_iff).mpr (pushNew_periods_nodup hnd)
    have hne : (jsSortBy periodCmp (pushNew cache items)).Pairwise
        (fun a b => pKey a ≠ pKey b) := by
      have hps : (jsSortBy periodCmp (pushNew cache items)).Pairwise
          (fun a b => a.period ≠ b.period) := (List.pairwise_map).mp hnd_s
      refine hps.imp_of_mem ?_
      intro a b ha hb hpne hkeq
      exact hpne (hinj a (hsmem a ha) b (hsmem b hb) hkeq)
    have hlt : (jsSortBy periodCmp (pushNew cache items)).Pairwise
        (fun a b => pKey b < pKey a) :=
      pairwise_lt_of_le_of_ne pKey _ hple hne
    by_cases hl : 21 < (jsSortBy periodCmp (pushNew cache items)).length
    · rw [if_pos hl]
      refine ⟨hnd_s.sublist ((List.take_sublist 21 _).map _), hlt.sublist (List.take_sublist 21 _), ?_⟩
      rw [List.length_take]; omega
    · rw [if_neg hl]
      exact ⟨hnd_s, hlt, by omega⟩

/-- Witness instantiating `c1_merge_invariant` at a concrete cache and batch. -/
theorem c1_merge_invariant_witness :
    CacheInv [⟨"300", 0, false, "SMALL"⟩] ∧
    CacheInv (mergeIntoCache [⟨"300", 0, false, "SMALL"⟩]
      [⟨"200", 3, false, "SMALL"⟩, ⟨"100", 7, true, "BIG"⟩]) :=
  ⟨by decide,
   c1_merge_invariant [⟨"300", 0, false, "SMALL"⟩]
     [⟨"200", 3, false, "SMALL"⟩, ⟨"100", 7, true, "BIG"⟩]
     (by decide) (by decide) (by decide) (by decide)⟩

/-! ## C2: merging a single entry is idempotent -/

theorem jsSortBy_perm (cmp : α → α → Int) (l : List α) : jsSortBy cmp l ~ l :=
  List.perm_insertionSort _ l

theorem jsSortBy_eq_of_sorted {cmp : α → α → Int} {l : List α}
    (h : l.Pairwise (jsSortLe cmp)) : jsSortBy cmp l = l :=
  List.Sorted.insertionSort_eq h

/-- Re-merging `[e]` into a sorted, capped cache whose periods parse leaves it
unchanged, provided `e`'s period either already occurs or was small enough to
have been sliced away (the full cache dominates it). -/
theorem merge_single_again (c' : List Entry) (e : Entry)
    (hall : ∀ x ∈ c', (parseBigInt x.period).isSome) (he : (parseBigInt e.period).isSome)
    (hkle : c'.Pairwise (fun x y => pKey y ≤ pKey x)) (hlen : c'.length ≤ 21)
    (hdich : e.period ∈ c'.map (fun x => x.period) ∨
             ((∀ y ∈ c', pKey e ≤ pKey y) ∧ c'.length = 21)) :
    mergeIntoCache c' [e] = c' := by
  have hsorted : c'.Pairwise (jsSortLe periodCmp) :=
    hkle.imp_of_mem (fun {a b} ha hb hle => (periodCmp_le_iff (hall a ha) (hall b hb)).mpr hle)
  rw [mergeIntoCache, if_neg (by simp)]
  by_cases hmem : e.period ∈ c'.map (fun x => x.period)
  · rw [pushNew_single_of_mem hmem, jsSortBy_eq_of_sorted hsorted, if_neg (by omega)]
  · rcases hdich with hmem' | ⟨hge, h21⟩
    · exact absurd hmem' hmem
    · rw [pushNew_single_of_not_mem hmem]
      have hsorted2 : (c' ++ [e]).Pairwise (jsSortLe periodCmp) := by
        rw [List.pairwise_append]
        refine ⟨hsorted, by simp, ?_⟩
        intro a ha b hb
        rcases List.mem_singleton.mp hb with rfl
        exact (periodCmp_le_iff (hall a ha) he).mpr (hge a ha)
      rw [jsSortBy_eq_of_sorted hsorted2, if_pos (by simp [List.length_append, h21])]
      have h21' : (21 : Nat) = c'.length := h21.symm
      rw [h21', List.take_left]

/-- C2.  Merging an entry twice yields the same cache as merging it once, for
every cache and entry over the numeric-period domain of the data model (over
non-numeric periods the JS comparator is inconsistent and the engine's sort
order is implementation-defined). -/
theorem c2_merge_idempotent (cache : List Entry) (e : Entry)
    (hca : AllNumPeriods cache) (he : (parseBigInt e.period).isSome) :
    mergeIntoCache (mergeIntoCache cache [e]) [e] = mergeIntoCache cache [e] := by
  have hall_m : ∀ x ∈ pushNew cache [e], (parseBigInt x.period).isSome := by
    intro x hx
    rcases pushNew_mem hx with h | h
    · exact hca x h
    · rcases List.mem_singleton.mp h with rfl; exact he
  have hx_m : ∃ x ∈ pushNew cache [e], x.period = e.period := by
    by_cases h0 : e.period ∈ cache.map (fun x => x.period)
    · rcases List.mem_map.mp h0 with ⟨x, hx, hxp⟩
      rw [pushNew_single_of_mem h0]
      exact ⟨x, hx, hxp⟩
    · rw [pushNew_single_of_not_mem h0]
      exact ⟨e, List.mem_append.mpr (Or.inr (List.mem_singleton.mpr rfl)), rfl⟩
  have hperm : jsSortBy periodCmp (pushNew cache [e]) ~ pushNew cache [e] :=
    jsSortBy_perm _ _
  have hall_s : ∀ x ∈ jsSortBy periodCmp (pushNew cache [e]), (parseBigInt x.period).isSome :=
    fun x hx => hall_m x (hperm.mem_iff.mp hx)
  have hkle_s : (jsSortBy periodCmp (pushNew cache [e])).Pairwise
      (fun x y => pKey y ≤ pKey x) :=
    jsSortBy_pairwise_key periodCmp pKey _
      (fun a ha b hb => periodCmp_le_iff (hall_m a ha) (hall_m b hb))
  have hx_s : ∃ x ∈ jsSortBy periodCmp (pushNew cache [e]), x.period = e.period := by
    rcases hx_m with ⟨x, hx, hxp⟩
    exact ⟨x, hperm.mem_iff.mpr hx, hxp⟩
  by_cases hl : 21 < (jsSortBy periodCmp (pushNew cache [e])).length
  · have hc' : mergeIntoCache cache [e] = (jsSortBy periodCmp (pushNew cache [e])).take 21 := by
      rw [mergeIntoCache, if_neg (by simp), if_pos hl]
    rw [hc']
    refine merge_single_again _ e
      (fun x hx => hall_s x ((List.take_sublist 21 _).mem hx))
      he (hkle_s.sublist (List.take_sublist 21 _))
      (by rw [List.length_take]; omega) ?_
    by_cases hper : e.period ∈ ((jsSortBy periodCmp (pushNew cache [e])).take 21).map
        (fun x => x.period)
    · exact Or.inl hper
    · refine Or.inr ⟨?_, by rw [List.length_take]; omega⟩
      rcases hx_s with ⟨x, hx, hxp⟩
      have hxnot : x ∉ (jsSortBy periodCmp (pushNew cache [e])).take 21 := by
        intro hmem
        exact hper (List.mem_map.mpr ⟨x, hmem, hxp⟩)
      have hxdrop : x ∈ (jsSortBy periodCmp (pushNew cache [e])).drop 21 := by
        have hx' := hx
        rw [← List.take_append_drop 21 (jsSortBy periodCmp (pushNew cache [e]))] at hx'
        rcases List.mem_append.mp hx' with h | h
        · exact absurd h hxnot
        · exact h
      have hsplit := hkle_s
      rw [← List.take_append_drop 21 (jsSortBy periodCmp (pushNew cache [e]))] at hsplit
      have hcross := (List.pairwise_append.mp hsplit).2.2
      intro y hy
      have hkxe : pKey x = pKey e := by simp [pKey, hxp]
      have := hcross y hy x hxdrop
      omega
  · have hc' : mergeIntoCache cache [e] = jsSortBy periodCmp (pushNew cache [e]) := by
      rw [mergeIntoCache, if_neg (by simp), if_neg hl]
    rw [hc']
    refine merge_single_again _ e hall_s he hkle_s (by omega) (Or.inl ?_)
    rcases hx_s with ⟨x, hx, hxp⟩
    exact List.mem_map.mpr ⟨x, hx, hxp⟩

/-- Witness instantiating `c2_merge_idempotent` at a concrete cache and entry. -/
theorem c2_merge_idempotent_witness :
    AllNumPeriods [⟨"400", 2, false, "SMALL"⟩] ∧
    (parseBigInt "250").isSome = true ∧
    mergeIntoCache (mergeIntoCache [⟨"400", 2, false, "SMALL"⟩] [⟨"250", 5, true, "BIG"⟩])
        [⟨"250", 5, true, "BIG"⟩] =
      mergeIntoCache [⟨"400", 2, false, "SMALL"⟩] [⟨"250", 5, true, "BIG"⟩] :=
  ⟨by decide, by decide,
   c2_merge_idempotent [⟨"400", 2, false, "SMALL"⟩] ⟨"250", 5, true, "BIG"⟩
     (by decide) (by decide)⟩

/-! ## C3: the item mapper -/

/-- C3.  For every raw record (a JS value; `null` is excluded since field
access on it throws before `mapItem` can return), the mapper yields `null`
exactly when the extracted identity is empty or the numeric parse fails;
otherwise the entry holds the absolute value of the parsed integer modulo 10,
`isBig` iff that digit is at least 5, and the matching label.  A record with
value `104` maps to digit `4`, not big. -/
theorem c3_mapItem_spec :
    (∀ item : JVal, item ≠ .null →
      ((mapItem item = none ↔ extractIdentity item = "" ∨ extractValue item = none) ∧
       (∀ n : Int, extractValue item = some n → extractIdentity item ≠ "" →
         mapItem item = some { period := extractIdentity item, number := n.natAbs % 10,
                               isBig := decide (5 ≤ n.natAbs % 10),
                               label := if 5 ≤ n.natAbs % 10 then "BIG" else "SMALL" }))) ∧
    mapItem (.obj [("issueNumber", .str "123"), ("number", .num 104)]) =
      some { period := "123", number := 4, isBig := false, label := "SMALL" } := by
  constructor
  · intro item _
    constructor
    · unfold mapItem
      cases hv : extractValue item with
      | none => simp
      | some n =>
        by_cases hp : extractIdentity item = ""
        · simp [hp]
        · simp [hp]
    · intro n hv hp
      unfold mapItem
      rw [hv]
      simp [hp]
  · decide

/-- Witness instantiating `c3_mapItem_spec` on a concrete record. -/
theorem c3_mapItem_spec_witness :
    mapItem (.obj [("issueNumber", .str "77"), ("number", .str "9")]) =
      some { period := "77", number := 9, isBig := true, label := "BIG" } := by
  have h := (c3_mapItem_spec.1 (.obj [("issueNumber", .str "77"), ("number", .str "9")])
    (by intro h; cases h)).2 9 (by decide) (by decide)
  exact h

/-! ## C4: short-history sentinels of the ten predictors -/

/-- C4 (counterexample).  Below its 21-entry minimum, `p10` returns the pair
`("Waiting (need 21)", "wait")`, which differs from the claimed fixed sentinel
`("Waiting…", "wait")`. -/
theorem c4_counterexample :
    p10 (List.replicate 20 0) = ("Waiting (need 21)", "wait") ∧
    ("Waiting (need 21)", "wait") ≠ (("Waiting…", "wait") : String × String) :=
  ⟨rfl, by decide⟩

/-- C4 (amended).  Each predictor returns its fixed waiting sentinel whenever
the history is shorter than its minimum (10, 10, 6, 4, 7, 8, 9, 12, 10 and 21
entries respectively, all between 4 and 21), regardless of the values present
and without raising: `p1`–`p9` return `("Waiting…", "wait")` and `p10`
returns `("Waiting (need 21)", "wait")`. -/
theorem c4_short_history_sentinel :
    (∀ h : List Rat, h.length < 10 → p1 h = ("Waiting…", "wait")) ∧
    (∀ h : List Rat, h.length < 10 → p2 h = ("Waiting…", "wait")) ∧
    (∀ h : List Rat, h.length < 6 → p3 h = ("Waiting…", "wait")) ∧
    (∀ h : List Rat, h.length < 4 → p4 h = ("Waiting…", "wait")) ∧
    (∀ h : List Rat, h.length < 7 → p5 h = ("Waiting…", "wait")) ∧
    (∀ h : List Rat, h.length < 8 → p6 h = ("Waiting…", "wait")) ∧
    (∀ h : List Rat, h.length < 9 → p7 h = ("Waiting…", "wait")) ∧
    (∀ h : List Rat, h.length < 12 → p8 h = ("Waiting…", "wait")) ∧
    (∀ h : List Rat, h.length < 10 → p9 h = ("Waiting…", "wait")) ∧
    (∀ h : List Rat, h.length < 21 → p10 h = ("Waiting (need 21)", "wait")) :=
  ⟨fun _ hl => by unfold p1; rw [if_pos hl],
   fun _ hl => by unfold p2; rw [if_pos hl],
   fun _ hl => by unfold p3; rw [if_pos hl],
   fun _ hl => by unfold p4; rw [if_pos hl],
   fun _ hl => by unfold p5; rw [if_pos hl],
   fun _ hl => by unfold p6; rw [if_pos hl],
   fun _ hl => by unfold p7; rw [if_pos hl],
   fun _ hl => by unfold p8; rw [if_pos hl],
   fun _ hl => by unfold p9; rw [if_pos hl],
   fun _ hl => by unfold p10; rw [if_pos hl]⟩

/-- Witness instantiating `c4_short_history_sentinel` on concrete short
histories whose values are present but ignored. -/
theorem c4_short_history_sentinel_witness :
    p1 [9, 9, 9] = ("Waiting…", "wait") ∧ p2 [] = ("Waiting…", "wait") ∧
    p3 [1, 2] = ("Waiting…", "wait") ∧ p4 [7] = ("Waiting…", "wait") ∧
    p5 [0, 0] = ("Waiting…", "wait") ∧ p6 [3] = ("Waiting…", "wait") ∧
    p7 [5, 5] = ("Waiting…", "wait") ∧ p8 [2] = ("Waiting…", "wait") ∧
    p9 [8] = ("Waiting…", "wait") ∧ p10 [4, 4, 4] = ("Waiting (need 21)", "wait") :=
  ⟨c4_short_history_sentinel.1 [9, 9, 9] (by decide),
   c4_short_history_sentinel.2.1 [] (by decide),
   c4_short_history_sentinel.2.2.1 [1, 2] (by decide),
   c4_short_history_sentinel.2.2.2.1 [7] (by decide),
   c4_short_history_sentinel.2.2.2.2.1 [0, 0] (by decide),
   c4_short_history_sentinel.2.2.2.2.2.1 [3] (by decide),
   c4_short_history_sentinel.2.2.2.2.2.2.1 [5, 5] (by decide),
   c4_short_history_sentinel.2.2.2.2.2.2.2.1 [2] (by decide),
   c4_short_history_sentinel.2.2.2.2.2.2.2.2.1 [8] (by decide),
   c4_short_history_sentinel.2.2.2.2.2.2.2.2.2 [4, 4, 4] (by decide)⟩

/-! ## C5: totality of the cache merge -/

theorem orderedInsertE_ok (cmpE : α → α → Except Unit Int) (cmp : α → α → Int)
    (hc : ∀ a b, cmpE a b = .ok (cmp a b)) (a : α) (l : List α) :
    orderedInsertE cmpE a l = .ok (l.orderedInsert (jsSortLe cmp) a) := by
  induction l with
  | nil => rfl
  | cons b l ih =>
    rw [orderedInsertE, hc a b]
    show (if cmp a b ≤ 0 then (Except.ok (a :: b :: l) : Except Unit (List α))
          else match orderedInsertE cmpE a l with
               | .error e => .error e
               | .ok r => .ok (b :: r)) =
        .ok ((b :: l).orderedInsert (jsSortLe cmp) a)
    rw [List.orderedInsert]
    by_cases hcb : cmp a b ≤ 0
    · rw [if_pos hcb, if_pos (show jsSortLe cmp a b from hcb)]
    · rw [if_neg hcb, if_neg (show ¬ jsSortLe cmp a b from hcb), ih]

theorem insertionSortE_ok (cmpE : α → α → Except Unit Int) (cmp : α → α → Int)
    (hc : ∀ a b, cmpE a b = .ok (cmp a b)) (l : List α) :
    insertionSortE cmpE l = .ok (jsSortBy cmp l) := by
  induction l with
  | nil => rfl
  | cons a l ih =>
    rw [insertionSortE, ih]
    exact orderedInsertE_ok cmpE cmp hc a (jsSortBy cmp l)

theorem periodCmpCaught_ok (a b : Entry) : periodCmpCaught a b = .ok (periodCmp a b) := by
  unfold periodCmpCaught periodCmpE periodCmp
  cases parseBigInt a.period <;> cases parseBigInt b.period <;> rfl

/-- C5 (counterexample).  The merge variant without the try/catch
(part_002 lines 31-51) raises on an input whose periods do not parse as big
integers: `BigInt("x")` throws out of the sort comparator. -/
theorem c5_counterexample :
    mergeIntoCacheV1 [] [⟨"x", 0, false, "SMALL"⟩, ⟨"y", 1, false, "SMALL"⟩] = .error () := rfl

/-- C5 (amended).  The merge with the string-comparison fallback
(part_002 lines 287-307) is total: for every cache and every input list —
empty, all-duplicate, or with unparseable period strings — it returns
normally, and its result is the pure `mergeIntoCache`. -/
theorem c5_merge_total (cache items : List Entry) :
    mergeIntoCacheE cache items = .ok (mergeIntoCache cache items) := by
  rw [mergeIntoCacheE, mergeIntoCache]
  by_cases hemp : items.length = 0
  · rw [if_pos hemp, if_pos hemp]
  · rw [if_neg hemp, if_neg hemp,
      insertionSortE_ok periodCmpCaught periodCmp periodCmpCaught_ok]

/-! ## C6: windowed big/small counts -/

theorem computeAux_get? (cache : List Entry) (idx : Nat) (ws : List Nat) (i : Nat) :
    (computeAllPredictionsAux cache idx ws).get? i =
      (ws.get? i).map (fun w => predFor cache (idx + i) w) := by
  induction ws generalizing idx i with
  | nil => simp [computeAllPredictionsAux]
  | cons w ws ih =>
    cases i with
    | zero => simp [computeAllPredictionsAux]
    | succ i =>
      show (computeAllPredictionsAux cache (idx + 1) ws).get? i = _
      rw [ih]
      have harith : idx + 1 + i = idx + (i + 1) := by omega
      rw [harith]
      rfl

theorem foldl_bigCount (l : List Entry) (n : Nat) :
    l.foldl (fun a i => a + if i.isBig then 1 else 0) n = n + l.countP (fun e => e.isBig) := by
  induction l generalizing n with
  | nil => simp
  | cons x l ih =>
    simp only [List.foldl_cons, ih, List.countP_cons]
    by_cases hx : x.isBig = true
    · simp only [hx, if_true]
      omega
    · simp only [hx, if_false]
      omega

/-- C6.  Whenever the cache holds at least `w` entries for a configured
window `w`, the corresponding block is ready, its big count is the number of
`isBig` entries among exactly the first `w` (newest-first) cache entries, its
small count is `w - big`, and the prediction is `"BIG"` iff `big ≥ small`; in
particular the all-big cache with values `[9,8,7,6,5]` at window 5 counts
5 big, 0 small and predicts `"BIG"`. -/
theorem c6_window_counts :
    (∀ (cache : List Entry) (i w : Nat), WINDOWS.get? i = some w → w ≤ cache.length →
      (computeAllPredictions cache).get? i =
        some { block := i + 1, window := w, ready := true,
               prediction :=
                 if w - (cache.take w).countP (fun e => e.isBig) ≤
                     (cache.take w).countP (fun e => e.isBig) then "BIG" else "SMALL",
               big := (cache.take w).countP (fun e => e.isBig),
               small := w - (cache.take w).countP (fun e => e.isBig) }) ∧
    (computeAllPredictions [⟨"105", 9, true, "BIG"⟩, ⟨"104", 8, true, "BIG"⟩,
        ⟨"103", 7, true, "BIG"⟩, ⟨"102", 6, true, "BIG"⟩, ⟨"101", 5, true, "BIG"⟩]).get? 1 =
      some { block := 2, window := 5, ready := true, prediction := "BIG",
             big := 5, small := 0 } := by
  constructor
  · intro cache i w hw hlen
    rw [computeAllPredictions, computeAux_get?, hw]
    show some (predFor cache (0 + i) w) = _
    rw [Nat.zero_add, predFor, if_neg (by omega)]
    simp only [foldl_bigCount, Nat.zero_add]
  · decide

/-- Witness instantiating `c6_window_counts` at the window-1 block of a
concrete cache. -/
theorem c6_window_counts_witness :
    (computeAllPredictions [⟨"105", 9, true, "BIG"⟩, ⟨"104", 8, true, "BIG"⟩,
        ⟨"103", 7, true, "BIG"⟩, ⟨"102", 6, true, "BIG"⟩, ⟨"101", 5, true, "BIG"⟩]).get? 0 =
      some { block := 1, window := 1, ready := true, prediction := "BIG",
             big := 1, small := 0 } := by
  have h := c6_window_counts.1 [⟨"105", 9, true, "BIG"⟩, ⟨"104", 8, true, "BIG"⟩,
    ⟨"103", 7, true, "BIG"⟩, ⟨"102", 6, true, "BIG"⟩, ⟨"101", 5, true, "BIG"⟩] 0 1
    (by decide) (by decide)
  exact h

/-! ## C7: failed cycles leave the cache unchanged -/

/-- C7.  An update cycle that produces no usable data — the fetch rejected,
the status was not 200, or no record list could be extracted — leaves the
cache exactly as it was, in both the part_002 updater (including its
Puppeteer retry) and the index.js `refreshFromBDG`. -/
theorem c7_failed_cycle_preserves_cache :
    (∀ (cache : List Entry) (http : Except Unit (Int × JVal)) (pup : Int × JVal),
      (∀ s b, http = .ok (s, b) → ¬(s = 200 ∧ 0 < (extractList (normBody b)).length)) →
      ¬(pup.1 = 200 ∧ 0 < (extractList (normBody pup.2)).length) →
      updateOnce cache http pup = cache) ∧
    (∀ (entries : List MRow) (res : Except Unit JVal) (nowMs retMin : Int),
      (∀ d, res = .ok d → (extractRows d).length = 0) →
      refreshFromBDG entries res nowMs retMin = entries) := by
  constructor
  · intro cache http pup h1 h2
    cases http with
    | error e => rfl
    | ok sb =>
      obtain ⟨s, b⟩ := sb
      simp only [updateOnce]
      rw [if_neg (h1 s b rfl), if_neg h2]
  · intro entries res nowMs retMin h
    cases res with
    | error e => rfl
    | ok d =>
      simp only [refreshFromBDG]
      rw [if_pos (h d rfl)]

/-- Witness instantiating `c7_failed_cycle_preserves_cache` on a concrete
failed cycle (HTTP 500 with empty body, Puppeteer unavailable with 598; and a
fetch whose payload carries no record list). -/
theorem c7_failed_cycle_preserves_cache_witness :
    updateOnce [⟨"900", 1, false, "SMALL"⟩] (.ok (500, .null)) (598, .null) =
      [⟨"900", 1, false, "SMALL"⟩] ∧
    refreshFromBDG [⟨some "202501010000", 3, 1000⟩] (.ok (.obj [("code", .num 0)])) 0 30 =
      [⟨some "202501010000", 3, 1000⟩] :=
  ⟨c7_failed_cycle_preserves_cache.1 [⟨"900", 1, false, "SMALL"⟩] (.ok (500, .null))
      (598, .null)
      (fun s b hsb => by
        injection hsb with h
        cases h
        decide)
      (by decide),
   c7_failed_cycle_preserves_cache.2 [⟨some "202501010000", 3, 1000⟩]
      (.ok (.obj [("code", .num 0)])) 0 30
      (fun d hd => by
        injection hd with h
        cases h
        rfl)⟩

/-! ## C8: age-based pruning -/

/-- C8.  After a prune pass the cache consists of exactly the entries at or
newer than the retention cutoff — entries older than the window are absent
even when the cache is below capacity, and the served snapshot lists are
drawn from this pruned state; likewise every entry surviving
`addNewHistoryEntry` is at most 30 minutes (1800000 ms) old. -/
theorem c8_prune_retention :
    (∀ (entries : List MRow) (nowMs retMin : Int) (e : MRow),
      e ∈ pruneOld entries nowMs retMin ↔
        (e ∈ entries ∧ nowMs + 330 * 60 * 1000 - retMin * 60 * 1000 ≤ e.tISTms)) ∧
    (∀ (α : Type) (hist : List (HistEntry α)) (d : α) (nowMs : Int) (e : HistEntry α),
      e ∈ addNewHistoryEntry hist d nowMs → nowMs - e.timestamp ≤ 1800000) := by
  constructor
  · intro entries nowMs retMin e
    simp only [pruneOld]
    rw [(jsSortBy_perm tCmpDesc _).mem_iff, List.mem_filter]
    simp only [decide_eq_true_eq]
  · intro α hist d nowMs e he
    simp only [addNewHistoryEntry] at he
    have he2 : e ∈ ({ data := d, timestamp := nowMs } :: hist).filter
        (fun x => decide (nowMs - x.timestamp ≤ 1800000)) := by
      by_cases hl : 21 < (({ data := d, timestamp := nowMs } :: hist).filter
          (fun x => decide (nowMs - x.timestamp ≤ 1800000))).length
      · rw [if_pos hl] at he
        exact (List.take_sublist 21 _).mem he
      · rwa [if_neg hl] at he
    exact of_decide_eq_true (List.mem_filter.mp he2).2

/-- Witness instantiating `c8_prune_retention`: a fresh entry survives a
prune, and the just-added history entry is within the 30-minute window. -/
theorem c8_prune_retention_witness :
    (⟨some "a", 1, 19800000⟩ : MRow) ∈
      pruneOld [⟨some "a", 1, 19800000⟩, ⟨some "b", 2, 0⟩] 0 30 ∧
    (0 : Int) - (⟨5, 0⟩ : HistEntry Nat).timestamp ≤ 1800000 :=
  ⟨(c8_prune_retention.1 [⟨some "a", 1, 19800000⟩, ⟨some "b", 2, 0⟩] 0 30
      ⟨some "a", 1, 19800000⟩).mpr ⟨by decide, by decide⟩,
   c8_prune_retention.2 Nat [] 5 0 ⟨5, 0⟩ (by decide)⟩

/-! ## C9: determinism of the row mapper -/

/-- C9 (counterexample).  A row whose period is present but not a valid
12-digit stamp takes its timestamp from the current clock minute, so mapping
the same raw record at two different minutes yields different results. -/
theorem c9_counterexample :
    mapRow (.obj [("period", .str "abc"), ("number", .num 5)]) 0 ≠
      mapRow (.obj [("period", .str "abc"), ("number", .num 5)]) 60000 := by decide

/-- C9 (amended).  `mapItem` reads no clock at all (its embedding is a pure
function of the record).  `mapRow` is independent of the clock exactly when
the row's period is truthy and parses to a nonzero timestamp; in every case
the `period` and `value` components of its result are clock-independent, so
only `tISTms` can differ between two applications. -/
theorem c9_mapper_determinism :
    (∀ (row : JVal) (t t' ms : Int),
      jsTruthy ((rowPeriodRaw row).getD .null) = true →
      periodISTtoMs (jsToString ((rowPeriodRaw row).getD .null)) = some ms → ms ≠ 0 →
      mapRow row t = mapRow row t') ∧
    (∀ (row : JVal) (t t' : Int),
      (mapRow row t).map (fun r => (r.period, r.value)) =
        (mapRow row t').map (fun r => (r.period, r.value))) := by
  constructor
  · intro row t t' ms htr hms hnz
    unfold mapRow
    cases jsNumber ((rowValueRaw row).getD .null) with
    | none => rfl
    | some v =>
      simp only [htr, hms, if_true, reduceIte]
      simp only [if_neg hnz]
  · intro row t t'
    unfold mapRow
    cases jsNumber ((rowValueRaw row).getD .null) with
    | none => rfl
    | some v => simp

/-- Witness instantiating `c9_mapper_determinism` on a row with a valid
12-digit period, mapped at two different times. -/
theorem c9_mapper_determinism_witness :
    mapRow (.obj [("period", .str "202501010000"), ("number", .num 5)]) 0 =
      mapRow (.obj [("period", .str "202501010000"), ("number", .num 5)]) 777777 :=
  c9_mapper_determinism.1 (.obj [("period", .str "202501010000"), ("number", .num 5)])
    0 777777 1735689600000 (by decide) (by decide) (by decide)

/-! ## C10: the dedup map keeps the strictly newer entry -/

/-- One comparison of the `byKey` loop, seen from the retained value: a later
entry replaces the current winner exactly when its `tISTms` is strictly
greater. -/
def pickStep (best : Option MRow) (e : MRow) : Option MRow :=
  match best with
  | none => some e
  | some b => if b.tISTms < e.tISTms then some e else some b

def pickFrom (seed : Option MRow) (l : List MRow) : Option MRow := l.foldl pickStep seed

/-- The entry the Map retains for a key: the earliest entry of maximal
`tISTms` among those with that key, in iteration order. -/
def pickWinner (l : List MRow) : Option MRow := pickFrom none l

theorem replace_key_fst (k' : String) (e : MRow) (kv : String × MRow) :
    ((if kv.1 == k' then (k', e) else kv) : String × MRow).1 = kv.1 := by
  by_cases h : kv.1 == k'
  · rw [if_pos h]
    exact (beq_iff_eq.mp h).symm
  · rw [if_neg h]

theorem find?_map_replace (k' : String) (e : MRow) (k : String)
    (m : List (String × MRow)) :
    (m.map (fun kv2 => if kv2.1 == k' then (k', e) else kv2)).find?
        (fun kv => kv.1 == k) =
      (m.find? (fun kv => kv.1 == k)).map
        (fun kv2 => if kv2.1 == k' then (k', e) else kv2) := by
  induction m with
  | nil => rfl
  | cons kv m ih =>
    rw [List.map_cons, List.find?_cons, List.find?_cons, replace_key_fst]
    by_cases hp : (kv.1 == k) = true
    · rw [hp]
      rfl
    · rw [Bool.of_not_eq_true hp]
      exact ih

theorem mapUpsertStep_of_none {m : List (String × MRow)} {e : MRow}
    (h : m.find? (fun kv => kv.1 == entryKey e) = none) :
    mapUpsertStep m e = m ++ [(entryKey e, e)] := by
  rw [mapUpsertStep, h]

theorem mapUpsertStep_of_some_lt {m : List (String × MRow)} {e : MRow} {kv : String × MRow}
    (h : m.find? (fun kv => kv.1 == entryKey e) = some kv) (hlt : kv.2.tISTms < e.tISTms) :
    mapUpsertStep m e =
      m.map (fun kv2 => if kv2.1 == entryKey e then (entryKey e, e) else kv2) := by
  rw [mapUpsertStep, h]
  exact if_pos hlt

theorem mapUpsertStep_of_some_ge {m : List (String × MRow)} {e : MRow} {kv : String × MRow}
    (h : m.find? (fun kv => kv.1 == entryKey e) = some kv) (hlt : ¬ kv.2.tISTms < e.tISTms) :
    mapUpsertStep m e = m := by
  rw [mapUpsertStep, h]
  exact if_neg hlt

theorem upsertMap_go (l : List MRow) (acc : List (String × MRow)) (k : String) :
    ((l.foldl mapUpsertStep acc).find? (fun kv => kv.1 == k)).map Prod.snd =
      pickFrom ((acc.find? (fun kv => kv.1 == k)).map Prod.snd)
        (l.filter (fun e => entryKey e == k)) := by
  induction l generalizing acc with
  | nil => rfl
  | cons e l ih =>
    rw [List.foldl_cons, ih]
    by_cases hk : (entryKey e == k) = true
    · have heq : entryKey e = k := beq_iff_eq.mp hk
      subst heq
      rw [List.filter_cons_of_pos (by simp)]
      have hstep : pickFrom ((acc.find? (fun kv => kv.1 == entryKey e)).map Prod.snd)
            (e :: l.filter (fun x => entryKey x == entryKey e)) =
          pickFrom (pickStep ((acc.find? (fun kv => kv.1 == entryKey e)).map Prod.snd) e)
            (l.filter (fun x => entryKey x == entryKey e)) := rfl
      rw [hstep]
      congr 1
      cases hacc : acc.find? (fun kv => kv.1 == entryKey e) with
      | none =>
        rw [mapUpsertStep_of_none hacc, List.find?_append, hacc]
        have hone : ([((entryKey e), e)].find? (fun kv => kv.1 == entryKey e)) =
            some (entryKey e, e) := by
          rw [List.find?_cons]
          have : (((entryKey e, e) : String × MRow).1 == entryKey e) = true := by simp
          rw [this]
        rw [hone]
        rfl
      | some kv =>
        by_cases hlt : kv.2.tISTms < e.tISTms
        · rw [mapUpsertStep_of_some_lt hacc hlt, find?_map_replace, hacc]
          have hkv := List.find?_some hacc
          simp [pickStep, hlt, beq_iff_eq.mp hkv]
        · rw [mapUpsertStep_of_some_ge hacc hlt, hacc]
          simp [pickStep, hlt]
    · rw [List.filter_cons_of_neg (by simpa using hk)]
      congr 1
      cases hacc : acc.find? (fun kv => kv.1 == entryKey e) with
      | none =>
        rw [mapUpsertStep_of_none hacc, List.find?_append]
        have hone : ([((entryKey e), e)].find? (fun kv => kv.1 == k)) = none := by
          rw [List.find?_cons]
          have : (((entryKey e, e) : String × MRow).1 == k) = false := by simpa using hk
          rw [this]
          rfl
        rw [hone]
        simp
      | some kv =>
        by_cases hlt : kv.2.tISTms < e.tISTms
        · rw [mapUpsertStep_of_some_lt hacc hlt, find?_map_replace]
          cases hacc2 : acc.find? (fun kv => kv.1 == k) with
          | none => rfl
          | some kv0 =>
            have h0' := List.find?_some hacc2
            have h0 : kv0.1 = k := beq_iff_eq.mp h0'
            have h1 : (kv0.1 == entryKey e) = false := by
              rw [h0]
              have hne : entryKey e ≠ k := by simpa using hk
              simp [beq_eq_false_iff_ne, hne.symm]
            simp [h1, beq_eq_false_iff_ne.mp h1]
        · rw [mapUpsertStep_of_some_ge hacc hlt]

/-- C10.  In the `upsertEntries` dedup map (iterating `[...newOnes,
...entries]`), the entry retained for each key is the first-seen entry of
strictly maximal `tISTms` among the entries with that key: a later entry with
strictly greater `tISTms` replaces the held one, while ties keep the entry
seen first (for one incoming and one stored entry with the same key, the
incoming one — iterated first — survives a tie, and the strictly newer one
wins otherwise); `upsertEntries` then sorts these winners newest-first and
prunes them. -/
theorem c10_upsert_newer_wins :
    (∀ (l : List MRow) (k : String),
      ((upsertMap l).find? (fun kv => kv.1 == k)).map Prod.snd =
        pickWinner (l.filter (fun e => entryKey e == k))) ∧
    (∀ (newOnes entries : List MRow) (nowMs retMin : Int),
      upsertEntries newOnes entries nowMs retMin =
        pruneOld (jsSortBy tCmpDesc ((upsertMap (newOnes ++ entries)).map Prod.snd))
          nowMs retMin) ∧
    (∀ a b : MRow, entryKey a = entryKey b →
      (upsertMap [a, b]).map Prod.snd = [if a.tISTms < b.tISTms then b else a]) := by
  refine ⟨fun l k => upsertMap_go l [] k, fun _ _ _ _ => rfl, ?_⟩
  intro a b hk
  have hbeq : (entryKey a == entryKey b) = true := beq_iff_eq.mpr hk
  show ((mapUpsertStep (mapUpsertStep [] a) b).map Prod.snd) = _
  have h1 : mapUpsertStep ([] : List (String × MRow)) a = [(entryKey a, a)] := rfl
  have hone : ([(entryKey a, a)].find? (fun kv => kv.1 == entryKey b)) =
      some (entryKey a, a) := by
    rw [List.find?_cons]
    have : (((entryKey a, a) : String × MRow).1 == entryKey b) = true := hbeq
    rw [this]
  rw [h1]
  by_cases hlt : a.tISTms < b.tISTms
  · rw [mapUpsertStep_of_some_lt hone hlt, if_pos hlt]
    simp [hbeq, hk]
  · rw [mapUpsertStep_of_some_ge hone hlt, if_neg hlt]
    rfl

/-- Witness instantiating `c10_upsert_newer_wins` on a key collision where the
stored entry carries the strictly newer timestamp and therefore survives. -/
theorem c10_upsert_newer_wins_witness :
    (upsertMap [⟨some "P", 1, 100⟩, ⟨some "P", 2, 200⟩]).map Prod.snd =
      [(⟨some "P", 2, 200⟩ : MRow)] := by
  have h := c10_upsert_newer_wins.2.2 ⟨some "P", 1, 100⟩ ⟨some "P", 2, 200⟩ (by decide)
  rw [h]
  decide

end MP
